import Mathlib

/-!
Verification of the DRAM repository's two large-file scanner scripts,
`scripts/find_large_files.py` and `scripts/find_large_files_v2.py`.

The scripts walk a list of root directories (pruning `node_modules` and
`.git`), count the lines of every file whose name ends in one of a fixed
set of web-source extensions, record a `(lines, status, filepath)` tuple
for every file whose count exceeds `warn_limit` (status `"FAIL"` when the
count also exceeds `fail_limit`, else `"WARN"`), sort the records in
descending order of line count with Python's stable `list.sort`, and
render a textual report.  The first variant prints to standard output,
the second writes the same text to a report file.

The embedding models the filesystem as an association list from root
paths to directory trees; opening and reading a file either yields its
line count or an error message (`Except`), mirroring the per-file
`try`/`except` in the source.  Each script is embedded separately, in
its own namespace, so that their equivalence is a theorem rather than a
modelling assumption.
-/

namespace DRAM

/-- The outcome of `open(filepath).readlines()` for one file: the number
of lines read, or the message of the exception raised. -/
structure FileData where
  name : String
  res : Except String Nat
deriving Repr

/-- A directory tree: the regular files directly inside it, and its named
subdirectories (in the enumeration order `os.walk` would report them). -/
inductive Dir where
  | mk : List FileData → List (String × Dir) → Dir

/-- The files directly inside a directory. -/
def Dir.files : Dir → List FileData
  | .mk fs _ => fs

/-- The named subdirectories of a directory. -/
def Dir.subdirs : Dir → List (String × Dir)
  | .mk _ ds => ds

/-- The subdirectory list is structurally smaller than the directory. -/
theorem Dir.sizeOf_subdirs_lt (d : Dir) : sizeOf d.subdirs < sizeOf d := by
  cases d with
  | mk fs ds => simp [Dir.subdirs]

/-- A filesystem: which root paths exist, and the tree under each.
`os.walk` on a path that is absent yields no triples at all. -/
def FS := List (String × Dir)

/-- `os.path.join(root, file)` on a POSIX system. -/
def joinPath (root file : String) : String := root ++ "/" ++ file

/-- A single-quote character, as used by Python `repr` of a string. -/
def pyQuote : String := String.singleton (Char.ofNat 39)

/-- Python `repr` of a plain string (no escaping needed for the paths
that occur here). -/
def pyStr (s : String) : String := pyQuote ++ s ++ pyQuote

/-- Python `str` of a list of strings, as interpolated by the f-string
`f"Checking files in {roots} ..."`. -/
def pyList (xs : List String) : String :=
  "[" ++ String.intercalate ", " (xs.map pyStr) ++ "]"

/-- One record appended to `large_files`: the tuple
`(lines, status, filepath)`. -/
structure Finding where
  count : Nat
  status : String
  path : String
deriving Repr, DecidableEq

/-- `sizeOf` of a sublist is bounded by `sizeOf` of the list; used for
the termination of the directory walk. -/
theorem sizeOf_le_of_sublist [SizeOf α] {l₁ l₂ : List α}
    (h : List.Sublist l₁ l₂) : sizeOf l₁ ≤ sizeOf l₂ := by
  induction h with
  | slnil => exact Nat.le_refl _
  | cons a _ ih => simp only [List.cons.sizeOf_spec]; omega
  | cons₂ a _ ih => simp only [List.cons.sizeOf_spec]; omega

/-- Erasing the first match if one is present is the same as the
unconditional first-match erasure. -/
theorem eraseIf_eq {α : Type} (p : α → Bool) (l : List α) :
    (if l.any p then l.eraseP p else l) = l.eraseP p := by
  by_cases h : l.any p = true
  · simp [h]
  · have hnone : ∀ a ∈ l, ¬ p a = true := fun a ha hpa =>
      h (List.any_eq_true.mpr ⟨a, ha, hpa⟩)
    simp [h, List.eraseP_of_forall_not hnone]

end DRAM

namespace FindLargeFiles

open DRAM

/-- `file.endswith(('.js', '.ts', '.jsx', '.tsx', '.mjs', '.cjs', '.css', '.html'))`:
true iff one of the fixed suffixes is a character suffix of the name. -/
def matchesExt (name : String) : Bool :=
  [".js", ".ts", ".jsx", ".tsx", ".mjs", ".cjs", ".css", ".html"].any
    (fun e => List.isSuffixOf e.data name.data)

/-- `if "node_modules" in dirs: dirs.remove("node_modules")` (Python's
`list.remove` deletes the first matching element). -/
def removeNodeModules (dirs : List (String × Dir)) : List (String × Dir) :=
  if dirs.any (fun d => d.1 == "node_modules") then
    dirs.eraseP (fun d => d.1 == "node_modules")
  else dirs

/-- `if ".git" in dirs: dirs.remove(".git")`. -/
def removeGit (dirs : List (String × Dir)) : List (String × Dir) :=
  if dirs.any (fun d => d.1 == ".git") then
    dirs.eraseP (fun d => d.1 == ".git")
  else dirs

/-- The in-place pruning performed on the `dirs` list at each level of
the walk: remove `node_modules`, then `.git`. -/
def pruneDirs (dirs : List (String × Dir)) : List (String × Dir) :=
  removeGit (removeNodeModules dirs)

/-- `pruneDirs` is the composition of the two first-occurrence erasures
(the `in` guards are redundant: erasing an absent name is a no-op). -/
theorem pruneDirs_eq (dirs : List (String × Dir)) :
    pruneDirs dirs =
      (dirs.eraseP (fun d => d.1 == "node_modules")).eraseP
        (fun d => d.1 == ".git") := by
  unfold pruneDirs removeGit removeNodeModules
  rw [eraseIf_eq, eraseIf_eq]

/-- The pruned list is a sublist of the original `dirs`. -/
theorem pruneDirs_sublist (dirs : List (String × Dir)) :
    List.Sublist (pruneDirs dirs) dirs := by
  rw [pruneDirs_eq]
  exact (List.eraseP_sublist _).trans (List.eraseP_sublist _)

mutual

/-- The sequence of `(dirpath, file)` pairs visited by the
`for root, dirs, files in os.walk(root_dir)` loop started at directory
`d` whose path is `p`: the files of the current directory first, then
(top-down) the contents of each non-pruned subdirectory. -/
def walkFiles (p : String) (d : Dir) : List (String × FileData) :=
  (d.files.map (fun fd => (p, fd))) ++ walkList p (pruneDirs d.subdirs)
termination_by sizeOf d
decreasing_by
  simp_wf
  have h1 := sizeOf_le_of_sublist (pruneDirs_sublist d.subdirs)
  have h2 := Dir.sizeOf_subdirs_lt d
  omega

/-- The visit of a list of (already pruned) subdirectories, in order. -/
def walkList (p : String) : List (String × Dir) → List (String × FileData)
  | [] => []
  | (n, d) :: rest => walkFiles (joinPath p n) d ++ walkList p rest
termination_by l => sizeOf l
decreasing_by
  all_goals simp_wf
  all_goals omega

end

/-- The error line printed by the `except` branch:
`print(f"Error reading {filepath}: {e}")`. -/
def errLine (filepath e : String) : String :=
  "Error reading " ++ filepath ++ ": " ++ e

/-- One pass of the inner `for file in files` loop body over a list of
visited `(dirpath, file)` pairs: skip names with no recognized
extension, append a `(lines, status, filepath)` record when the line
count exceeds `warn_limit`, and emit an error line when reading fails.
Returns the accumulated `large_files` list and the error lines printed,
each in traversal order. -/
def scanEntries (warn_limit fail_limit : Nat) :
    List (String × FileData) → List Finding × List String
  | [] => ([], [])
  | (root, file) :: rest =>
    let r := scanEntries warn_limit fail_limit rest
    if matchesExt file.name then
      match file.res with
      | .ok lines =>
        if lines > warn_limit then
          (⟨lines, if lines > fail_limit then "FAIL" else "WARN",
             joinPath root file.name⟩ :: r.1, r.2)
        else r
      | .error e => (r.1, errLine (joinPath root file.name) e :: r.2)
    else r

/-- All `(dirpath, file)` pairs visited by the nested
`for root_dir in roots: for root, dirs, files in os.walk(root_dir)`
loops; a root path absent from the filesystem yields nothing. -/
def allEntries (fs : FS) (roots : List String) : List (String × FileData) :=
  roots.flatMap (fun r =>
    match List.lookup r fs with
    | some d => walkFiles r d
    | none => [])

/-- `large_files.sort(reverse=True, key=lambda x: x[0])`: Python's
stable sort, in descending order of the line count. -/
def sortFindings (l : List Finding) : List Finding :=
  l.mergeSort (fun a b => decide (b.count ≤ a.count))

/-- `f"[{status}] {count} lines: {path}"`. -/
def renderFinding (g : Finding) : String :=
  "[" ++ g.status ++ "] " ++ toString g.count ++ " lines: " ++ g.path

/-- `f"Checking files in {roots} (Warn: {warn_limit}, Fail: {fail_limit})"`. -/
def headerLine (roots : List String) (warn_limit fail_limit : Nat) : String :=
  "Checking files in " ++ pyList roots ++ " (Warn: " ++ toString warn_limit
    ++ ", Fail: " ++ toString fail_limit ++ ")"

/-- The whole `check_files(roots, warn_limit, fail_limit)` run of
`find_large_files.py`, as the sequence of lines printed to standard
output: the header, the error lines in scan order, the blank line and
`Results:` printed by `print("\nResults:")`, then the sorted findings. -/
def check_files (fs : FS) (roots : List String)
    (warn_limit fail_limit : Nat) : List String :=
  let scanned := scanEntries warn_limit fail_limit (allEntries fs roots)
  headerLine roots warn_limit fail_limit :: scanned.2
    ++ "" :: "Results:" :: (sortFindings scanned.1).map renderFinding

/-- The hard-coded roots of the `__main__` invocation. -/
def mainRoots : List String := ["src", "dram-engine/src"]

/-- The default thresholds `warn_limit=500, fail_limit=700`. -/
def defaultWarnLimit : Nat := 500

/-- The default fail threshold. -/
def defaultFailLimit : Nat := 700

end FindLargeFiles

namespace FindLargeFilesV2

open DRAM

/-- `file.endswith(('.js', '.ts', '.jsx', '.tsx', '.mjs', '.cjs', '.css', '.html'))`
in `find_large_files_v2.py`: true iff one of the fixed suffixes is a
character suffix of the name. -/
def matchesExt (name : String) : Bool :=
  [".js", ".ts", ".jsx", ".tsx", ".mjs", ".cjs", ".css", ".html"].any
    (fun e => List.isSuffixOf e.data name.data)

/-- `if "node_modules" in dirs: dirs.remove("node_modules")` in the v2 walk. -/
def removeNodeModules (dirs : List (String × Dir)) : List (String × Dir) :=
  if dirs.any (fun d => d.1 == "node_modules") then
    dirs.eraseP (fun d => d.1 == "node_modules")
  else dirs

/-- `if ".git" in dirs: dirs.remove(".git")` in the v2 walk. -/
def removeGit (dirs : List (String × Dir)) : List (String × Dir) :=
  if dirs.any (fun d => d.1 == ".git") then
    dirs.eraseP (fun d => d.1 == ".git")
  else dirs

/-- The pruning performed on `dirs` at each level of the v2 walk. -/
def pruneDirs (dirs : List (String × Dir)) : List (String × Dir) :=
  removeGit (removeNodeModules dirs)

/-- The pruned list is a sublist of the original `dirs`. -/
theorem pruneDirsV2_sublist (dirs : List (String × Dir)) :
    List.Sublist (pruneDirs dirs) dirs := by
  unfold pruneDirs removeGit removeNodeModules
  rw [eraseIf_eq, eraseIf_eq]
  exact (List.eraseP_sublist _).trans (List.eraseP_sublist _)

mutual

/-- The `(dirpath, file)` pairs visited by
`for root, dirs, files in os.walk(root_dir)` in `find_large_files_v2.py`. -/
def walkFiles (p : String) (d : Dir) : List (String × FileData) :=
  (d.files.map (fun fd => (p, fd))) ++ walkList p (pruneDirs d.subdirs)
termination_by sizeOf d
decreasing_by
  simp_wf
  have h1 := sizeOf_le_of_sublist (pruneDirsV2_sublist d.subdirs)
  have h2 := Dir.sizeOf_subdirs_lt d
  omega

/-- The visit of a list of (already pruned) subdirectories, in order. -/
def walkList (p : String) : List (String × Dir) → List (String × FileData)
  | [] => []
  | (n, d) :: rest => walkFiles (joinPath p n) d ++ walkList p rest
termination_by l => sizeOf l
decreasing_by
  all_goals simp_wf
  all_goals omega

end

/-- The error line written by the `except` branch:
`out.write(f"Error reading {filepath}: {e}\n")`. -/
def errLine (filepath e : String) : String :=
  "Error reading " ++ filepath ++ ": " ++ e

/-- One pass of the v2 inner `for file in files` loop body over the
visited `(dirpath, file)` pairs, returning the accumulated
`large_files` list and the error lines written to the report. -/
def scanEntries (warn_limit fail_limit : Nat) :
    List (String × FileData) → List Finding × List String
  | [] => ([], [])
  | (root, file) :: rest =>
    let r := scanEntries warn_limit fail_limit rest
    if matchesExt file.name then
      match file.res with
      | .ok lines =>
        if lines > warn_limit then
          (⟨lines, if lines > fail_limit then "FAIL" else "WARN",
             joinPath root file.name⟩ :: r.1, r.2)
        else r
      | .error e => (r.1, errLine (joinPath root file.name) e :: r.2)
    else r

/-- All `(dirpath, file)` pairs visited by the v2 nested loops. -/
def allEntries (fs : FS) (roots : List String) : List (String × FileData) :=
  roots.flatMap (fun r =>
    match List.lookup r fs with
    | some d => walkFiles r d
    | none => [])

/-- `large_files.sort(reverse=True, key=lambda x: x[0])` in v2. -/
def sortFindings (l : List Finding) : List Finding :=
  l.mergeSort (fun a b => decide (b.count ≤ a.count))

/-- `out.write(f"[{status}] {count} lines: {path}\n")`, as one line. -/
def renderFinding (g : Finding) : String :=
  "[" ++ g.status ++ "] " ++ toString g.count ++ " lines: " ++ g.path

/-- `out.write(f"Checking files in {roots} (Warn: ..., Fail: ...)\n")`,
as one line. -/
def headerLine (roots : List String) (warn_limit fail_limit : Nat) : String :=
  "Checking files in " ++ pyList roots ++ " (Warn: " ++ toString warn_limit
    ++ ", Fail: " ++ toString fail_limit ++ ")"

/-- The default report path `output_file="large_files_report.txt"`. -/
def defaultOutputFile : String := "large_files_report.txt"

/-- The whole `check_files(roots, warn_limit, fail_limit, output_file)`
run of `find_large_files_v2.py`: the name of the report file it opens
with mode `"w"` (truncating it), and the sequence of lines written to
it — the header, the error lines in scan order, the blank line and
`Results:` from `out.write("\nResults:\n")`, then the sorted findings. -/
def check_files (fs : FS) (roots : List String)
    (warn_limit fail_limit : Nat) (output_file : String) :
    String × List String :=
  let scanned := scanEntries warn_limit fail_limit (allEntries fs roots)
  (output_file,
    headerLine roots warn_limit fail_limit :: scanned.2
      ++ "" :: "Results:" :: (sortFindings scanned.1).map renderFinding)

/-- The hard-coded roots of the v2 `__main__` invocation. -/
def mainRoots : List String := ["src", "dram-engine/src"]

end FindLargeFilesV2

section Bridges

open DRAM

/-- The two scripts use the same extension filter. -/
theorem bridge_matchesExt :
    FindLargeFilesV2.matchesExt = FindLargeFiles.matchesExt := rfl

/-- The two scripts format read errors identically. -/
theorem bridge_errLine : FindLargeFilesV2.errLine = FindLargeFiles.errLine := rfl

/-- The two scripts prune the same directory names. -/
theorem bridge_pruneDirs :
    FindLargeFilesV2.pruneDirs = FindLargeFiles.pruneDirs := rfl

/-- The two scripts classify and record files identically. -/
theorem bridge_scanEntries (w f : Nat) :
    ∀ entries,
      FindLargeFilesV2.scanEntries w f entries
        = FindLargeFiles.scanEntries w f entries
  | [] => rfl
  | (root, file) :: rest => by
    simp only [FindLargeFilesV2.scanEntries, FindLargeFiles.scanEntries,
      bridge_scanEntries w f rest, bridge_matchesExt, bridge_errLine]

mutual

/-- The two scripts visit the same `(dirpath, file)` pairs. -/
theorem bridge_walkFiles : ∀ (p : String) (d : Dir),
    FindLargeFilesV2.walkFiles p d = FindLargeFiles.walkFiles p d
  | p, d => by
    rw [FindLargeFilesV2.walkFiles, FindLargeFiles.walkFiles, bridge_pruneDirs,
      bridge_walkList p (FindLargeFiles.pruneDirs d.subdirs)]
termination_by p d => sizeOf d
decreasing_by
  simp_wf
  have h1 := sizeOf_le_of_sublist (FindLargeFiles.pruneDirs_sublist d.subdirs)
  have h2 := Dir.sizeOf_subdirs_lt d
  omega

/-- The two scripts visit the same subdirectory lists. -/
theorem bridge_walkList : ∀ (p : String) (l : List (String × Dir)),
    FindLargeFilesV2.walkList p l = FindLargeFiles.walkList p l
  | _, [] => by
    simp [FindLargeFilesV2.walkList, FindLargeFiles.walkList]
  | p, (n, d) :: rest => by
    simp only [FindLargeFilesV2.walkList, FindLargeFiles.walkList]
    rw [bridge_walkFiles (joinPath p n) d, bridge_walkList p rest]
termination_by p l => sizeOf l
decreasing_by
  all_goals simp_wf
  all_goals omega

end

/-- The two scripts enumerate the same entries from the same roots. -/
theorem bridge_allEntries (fs : FS) (roots : List String) :
    FindLargeFilesV2.allEntries fs roots = FindLargeFiles.allEntries fs roots := by
  unfold FindLargeFilesV2.allEntries FindLargeFiles.allEntries
  refine congrArg _ (funext fun r => ?_)
  cases List.lookup r fs with
  | none => rfl
  | some d => exact bridge_walkFiles r d

/-- The two scripts sort findings identically. -/
theorem bridge_sortFindings :
    FindLargeFilesV2.sortFindings = FindLargeFiles.sortFindings := rfl

/-- The two scripts render findings identically. -/
theorem bridge_renderFinding :
    FindLargeFilesV2.renderFinding = FindLargeFiles.renderFinding := rfl

/-- The two scripts render the header identically. -/
theorem bridge_headerLine :
    FindLargeFilesV2.headerLine = FindLargeFiles.headerLine := rfl

/-- The report content written by v2 is exactly the line sequence v1
prints. -/
theorem bridge_check_files (fs : FS) (roots : List String)
    (warn_limit fail_limit : Nat) (output_file : String) :
    (FindLargeFilesV2.check_files fs roots warn_limit fail_limit output_file).2
      = FindLargeFiles.check_files fs roots warn_limit fail_limit := by
  unfold FindLargeFilesV2.check_files FindLargeFiles.check_files
  simp only [bridge_scanEntries, bridge_allEntries, bridge_sortFindings,
    bridge_renderFinding, bridge_headerLine]

end Bridges

namespace FindLargeFiles

open DRAM

/-- The record that the loop body appends to `large_files` for one
visited `(dirpath, file)` pair, if any. -/
def entryFinding (warn_limit fail_limit : Nat) (x : String × FileData) :
    Option Finding :=
  if matchesExt x.2.name then
    match x.2.res with
    | .ok lines =>
      if lines > warn_limit then
        some ⟨lines, if lines > fail_limit then "FAIL" else "WARN",
          joinPath x.1 x.2.name⟩
      else none
    | .error _ => none
  else none

/-- The error line the loop body emits for one visited pair, if any. -/
def entryError (x : String × FileData) : Option String :=
  if matchesExt x.2.name then
    match x.2.res with
    | .ok _ => none
    | .error e => some (errLine (joinPath x.1 x.2.name) e)
  else none

/-- The scan loop is pointwise: it is the `filterMap` of the per-entry
classification over the visited pairs. -/
theorem scanEntries_eq (warn_limit fail_limit : Nat) :
    ∀ entries, scanEntries warn_limit fail_limit entries
      = (entries.filterMap (entryFinding warn_limit fail_limit),
         entries.filterMap entryError)
  | [] => rfl
  | (root, file) :: rest => by
    simp only [scanEntries, scanEntries_eq warn_limit fail_limit rest,
      List.filterMap_cons]
    cases hm : matchesExt file.name with
    | false => simp [entryFinding, entryError, hm]
    | true =>
      cases hr : file.res with
      | error e => simp [entryFinding, entryError, hm, hr]
      | ok lines =>
        by_cases hl : lines > warn_limit
        · simp [entryFinding, entryError, hm, hr, hl]
        · simp [entryFinding, entryError, hm, hr, hl]

/-- The scan distributes over concatenation of the visited pairs. -/
theorem scanEntries_append (warn_limit fail_limit : Nat)
    (xs ys : List (String × FileData)) :
    scanEntries warn_limit fail_limit (xs ++ ys)
      = ((scanEntries warn_limit fail_limit xs).1
           ++ (scanEntries warn_limit fail_limit ys).1,
         (scanEntries warn_limit fail_limit xs).2
           ++ (scanEntries warn_limit fail_limit ys).2) := by
  simp [scanEntries_eq, List.filterMap_append]

/-- The descending-count comparison used by the sort. -/
theorem sort_trans : ∀ a b c : Finding,
    (fun a b : Finding => decide (b.count ≤ a.count)) a b
      → (fun a b : Finding => decide (b.count ≤ a.count)) b c
      → (fun a b : Finding => decide (b.count ≤ a.count)) a c := by
  intro a b c hab hbc
  simp only [decide_eq_true_eq] at *
  omega

/-- The comparison is total. -/
theorem sort_total : ∀ a b : Finding,
    ((fun a b : Finding => decide (b.count ≤ a.count)) a b
      || (fun a b : Finding => decide (b.count ≤ a.count)) b a) = true := by
  intro a b
  simp only [Bool.or_eq_true, decide_eq_true_eq]
  omega

/-- The sorted list is non-increasing in the line count. -/
theorem sortFindings_pairwise (l : List Finding) :
    (sortFindings l).Pairwise (fun a b => b.count ≤ a.count) := by
  have h := List.sorted_mergeSort sort_trans sort_total l
  exact h.imp (fun hab => of_decide_eq_true hab)

/-- The sort permutes the scanned findings. -/
theorem sortFindings_perm (l : List Finding) :
    List.Perm (sortFindings l) l :=
  List.mergeSort_perm l _

/-- A list whose members all have line count `c` is pairwise
non-increasing. -/
theorem pairwise_of_count_const (c : Nat) :
    ∀ (t : List Finding), (∀ x ∈ t, x.count = c)
      → t.Pairwise (fun a b : Finding => decide (b.count ≤ a.count) = true)
  | [], _ => List.Pairwise.nil
  | x :: t, h => by
    refine List.Pairwise.cons ?_ (pairwise_of_count_const c t ?_)
    · intro y hy
      have hx : x.count = c := h x (List.mem_cons_self x t)
      have hyc : y.count = c := h y (List.mem_cons_of_mem x hy)
      simp [hx, hyc]
    · intro y hy
      exact h y (List.mem_cons_of_mem x hy)

/-- Stability of the sort: the findings of each fixed line count keep
their traversal order. -/
theorem sortFindings_filter_count (l : List Finding) (c : Nat) :
    (sortFindings l).filter (fun g => g.count == c)
      = l.filter (fun g => g.count == c) := by
  set p : Finding → Bool := fun g => g.count == c with hp
  have hmem : ∀ x ∈ l.filter p, x.count = c := by
    intro x hx
    have := (List.mem_filter.mp hx).2
    simpa [hp] using this
  have hpair := pairwise_of_count_const c (l.filter p) hmem
  have hsub : List.Sublist (l.filter p) l := List.filter_sublist l
  have h2 : List.Sublist (l.filter p) (sortFindings l) :=
    List.sublist_mergeSort sort_trans sort_total hpair hsub
  have hself : (l.filter p).filter p = l.filter p :=
    List.filter_eq_self.mpr (fun a ha => (List.mem_filter.mp ha).2)
  have h3 : List.Sublist (l.filter p) ((sortFindings l).filter p) := by
    have := h2.filter p
    rwa [hself] at this
  have hlen : ((sortFindings l).filter p).length = (l.filter p).length :=
    ((sortFindings_perm l).filter p).length_eq
  exact (h3.eq_of_length hlen.symm).symm

end FindLargeFiles

namespace FindLargeFiles

open DRAM

/-- Soundness of the scan: every recorded finding exceeds the warn
threshold and carries the status the thresholds dictate. -/
theorem mem_scan_findings (warn_limit fail_limit : Nat)
    (entries : List (String × FileData)) (g : Finding)
    (hg : g ∈ (scanEntries warn_limit fail_limit entries).1) :
    warn_limit < g.count
      ∧ g.status = (if fail_limit < g.count then "FAIL" else "WARN") := by
  rw [scanEntries_eq] at hg
  obtain ⟨x, hx, hgx⟩ := List.mem_filterMap.mp hg
  by_cases hm : matchesExt x.2.name
  · cases hr : x.2.res with
    | error e => simp [entryFinding, hm, hr] at hgx
    | ok lines =>
      by_cases hl : lines > warn_limit
      · have hgx' :
            (⟨lines, if lines > fail_limit then "FAIL" else "WARN",
               joinPath x.1 x.2.name⟩ : Finding) = g := by
          have := hgx
          unfold entryFinding at this
          rw [if_pos hm] at this
          simp only [hr] at this
          rw [if_pos hl] at this
          exact Option.some.inj this
        subst hgx'
        exact ⟨hl, rfl⟩
      · simp [entryFinding, hm, hr, hl] at hgx
  · simp [entryFinding, hm] at hgx

/-- Completeness of the scan: every visited matching readable file whose
count exceeds the warn threshold is recorded. -/
theorem scan_findings_complete (warn_limit fail_limit : Nat)
    (entries : List (String × FileData)) (root : String) (file : FileData)
    (n : Nat) (hmem : (root, file) ∈ entries)
    (hext : matchesExt file.name = true) (hres : file.res = Except.ok n)
    (hn : warn_limit < n) :
    (⟨n, if fail_limit < n then "FAIL" else "WARN",
       joinPath root file.name⟩ : Finding)
      ∈ (scanEntries warn_limit fail_limit entries).1 := by
  rw [scanEntries_eq]
  refine List.mem_filterMap.mpr ⟨(root, file), hmem, ?_⟩
  simp [entryFinding, hext, hres, hn]

end FindLargeFiles

/-- C1: for every file scanned, a Finding is recorded if and only if its
line count strictly exceeds `warn_limit`, and the recorded Finding's
status is `FAIL` when the count also strictly exceeds `fail_limit`,
otherwise `WARN` — in both script variants. -/
theorem c1_finding_iff_thresholds (warn_limit fail_limit : Nat)
    (entries : List (String × DRAM.FileData)) :
    (∀ g ∈ (FindLargeFiles.scanEntries warn_limit fail_limit entries).1,
        warn_limit < g.count
          ∧ g.status = (if fail_limit < g.count then "FAIL" else "WARN"))
    ∧ (∀ (root : String) (file : DRAM.FileData) (n : Nat),
        (root, file) ∈ entries → FindLargeFiles.matchesExt file.name = true →
        file.res = Except.ok n → warn_limit < n →
        (⟨n, if fail_limit < n then "FAIL" else "WARN",
           DRAM.joinPath root file.name⟩ : DRAM.Finding)
          ∈ (FindLargeFiles.scanEntries warn_limit fail_limit entries).1)
    ∧ FindLargeFilesV2.scanEntries warn_limit fail_limit entries
        = FindLargeFiles.scanEntries warn_limit fail_limit entries := by
  refine ⟨?_, ?_, bridge_scanEntries warn_limit fail_limit entries⟩
  · intro g hg
    exact FindLargeFiles.mem_scan_findings warn_limit fail_limit entries g hg
  · intro root file n hmem hext hres hn
    exact FindLargeFiles.scan_findings_complete warn_limit fail_limit entries
      root file n hmem hext hres hn

/-- Witness for C1 at the default thresholds: a 501-line `a.ts` under
`src` is recorded with status `WARN`. -/
theorem c1_finding_iff_thresholds_witness :
    (⟨501, if 700 < 501 then "FAIL" else "WARN",
       DRAM.joinPath "src" "a.ts"⟩ : DRAM.Finding)
      ∈ (FindLargeFiles.scanEntries 500 700
          [("src", ⟨"a.ts", Except.ok 501⟩)]).1 :=
  (c1_finding_iff_thresholds 500 700 [("src", ⟨"a.ts", Except.ok 501⟩)]).2.1
    "src" ⟨"a.ts", Except.ok 501⟩ 501 (List.mem_singleton.mpr rfl)
    (by decide) rfl (by decide)

/-- C2: a file whose line count equals `fail_limit` exactly (and exceeds
`warn_limit`) produces a Finding with status `WARN`, not `FAIL`; a
`FAIL` status requires the count to be strictly greater than
`fail_limit`. -/
theorem c2_fail_boundary_exclusive (warn_limit fail_limit : Nat)
    (root : String) (file : DRAM.FileData)
    (rest : List (String × DRAM.FileData))
    (hres : file.res = Except.ok fail_limit)
    (hext : FindLargeFiles.matchesExt file.name = true)
    (hw : warn_limit < fail_limit) :
    (FindLargeFiles.scanEntries warn_limit fail_limit ((root, file) :: rest)).1
      = ⟨fail_limit, "WARN", DRAM.joinPath root file.name⟩
          :: (FindLargeFiles.scanEntries warn_limit fail_limit rest).1
    ∧ (∀ (entries : List (String × DRAM.FileData)),
        ∀ g ∈ (FindLargeFiles.scanEntries warn_limit fail_limit entries).1,
          g.status = "FAIL" → fail_limit < g.count)
    ∧ (FindLargeFilesV2.scanEntries warn_limit fail_limit
         ((root, file) :: rest)).1
        = ⟨fail_limit, "WARN", DRAM.joinPath root file.name⟩
            :: (FindLargeFilesV2.scanEntries warn_limit fail_limit rest).1 := by
  have hcons :
      (FindLargeFiles.scanEntries warn_limit fail_limit ((root, file) :: rest)).1
        = ⟨fail_limit, "WARN", DRAM.joinPath root file.name⟩
            :: (FindLargeFiles.scanEntries warn_limit fail_limit rest).1 := by
    simp [FindLargeFiles.scanEntries, hext, hres, hw, Nat.lt_irrefl]
  refine ⟨hcons, ?_, ?_⟩
  · intro entries g hg hfail
    obtain ⟨-, hstatus⟩ :=
      FindLargeFiles.mem_scan_findings warn_limit fail_limit entries g hg
    by_cases hcount : fail_limit < g.count
    · exact hcount
    · rw [if_neg hcount] at hstatus
      rw [hstatus] at hfail
      exact absurd hfail (by decide)
  · rw [bridge_scanEntries, bridge_scanEntries]
    exact hcons

/-- Witness for C2 at the defaults: a 700-line file with
`fail_limit = 700` yields a `WARN` finding. -/
theorem c2_fail_boundary_exclusive_witness :
    (FindLargeFiles.scanEntries 500 700
        [("src", ⟨"b.js", Except.ok 700⟩)]).1
      = [⟨700, "WARN", DRAM.joinPath "src" "b.js"⟩] := by
  have h := (c2_fail_boundary_exclusive 500 700 "src" ⟨"b.js", Except.ok 700⟩ []
    rfl (by decide) (by decide)).1
  simpa using h

/-- C10: the scanner never compares `warn_limit` with `fail_limit`; a
`FAIL` finding requires the count to exceed both, so when
`fail_limit < warn_limit` a file whose count lies in
`(fail_limit, warn_limit]` produces no finding at all. -/
theorem c10_inverted_thresholds (warn_limit fail_limit n : Nat)
    (root : String) (file : DRAM.FileData)
    (rest : List (String × DRAM.FileData))
    (hres : file.res = Except.ok n)
    (hext : FindLargeFiles.matchesExt file.name = true)
    (hfw : fail_limit < warn_limit) (hfn : fail_limit < n)
    (hnw : n ≤ warn_limit) :
    FindLargeFiles.scanEntries warn_limit fail_limit ((root, file) :: rest)
      = FindLargeFiles.scanEntries warn_limit fail_limit rest
    ∧ (∀ (entries : List (String × DRAM.FileData)),
        ∀ g ∈ (FindLargeFiles.scanEntries warn_limit fail_limit entries).1,
          g.status = "FAIL" → warn_limit < g.count ∧ fail_limit < g.count)
    ∧ FindLargeFilesV2.scanEntries warn_limit fail_limit ((root, file) :: rest)
        = FindLargeFilesV2.scanEntries warn_limit fail_limit rest := by
  have hskip :
      FindLargeFiles.scanEntries warn_limit fail_limit ((root, file) :: rest)
        = FindLargeFiles.scanEntries warn_limit fail_limit rest := by
    simp [FindLargeFiles.scanEntries, hext, hres, Nat.not_lt.mpr hnw]
  refine ⟨hskip, ?_, ?_⟩
  · intro entries g hg hfail
    obtain ⟨hwarn, hstatus⟩ :=
      FindLargeFiles.mem_scan_findings warn_limit fail_limit entries g hg
    refine ⟨hwarn, ?_⟩
    by_cases hcount : fail_limit < g.count
    · exact hcount
    · rw [if_neg hcount] at hstatus
      rw [hstatus] at hfail
      exact absurd hfail (by decide)
  · rw [bridge_scanEntries, bridge_scanEntries]
    exact hskip

/-- Witness for C10: with `warn_limit = 700`, `fail_limit = 500`, a
600-line `a.ts` exceeds the fail threshold yet yields no finding. -/
theorem c10_inverted_thresholds_witness :
    FindLargeFiles.scanEntries 700 500 [("src", ⟨"a.ts", Except.ok 600⟩)]
      = FindLargeFiles.scanEntries 700 500 [] :=
  (c10_inverted_thresholds 700 500 600 "src" ⟨"a.ts", Except.ok 600⟩ []
    rfl (by decide) (by decide) (by decide) (by decide)).1

/-- C3: the rendered report lists the findings in non-increasing order
of line count, and findings with equal counts keep their traversal
order (the sort is stable among equal counts). -/
theorem c3_report_sorted_stable (fs : DRAM.FS) (roots : List String)
    (warn_limit fail_limit : Nat) :
    (FindLargeFiles.check_files fs roots warn_limit fail_limit
       = FindLargeFiles.headerLine roots warn_limit fail_limit
           :: (FindLargeFiles.scanEntries warn_limit fail_limit
                 (FindLargeFiles.allEntries fs roots)).2
           ++ "" :: "Results:"
           :: (FindLargeFiles.sortFindings
                 (FindLargeFiles.scanEntries warn_limit fail_limit
                   (FindLargeFiles.allEntries fs roots)).1).map
                FindLargeFiles.renderFinding)
    ∧ (∀ l : List DRAM.Finding,
        (FindLargeFiles.sortFindings l).Pairwise
          (fun a b => b.count ≤ a.count))
    ∧ (∀ (l : List DRAM.Finding) (c : Nat),
        (FindLargeFiles.sortFindings l).filter (fun g => g.count == c)
          = l.filter (fun g => g.count == c))
    ∧ FindLargeFilesV2.sortFindings = FindLargeFiles.sortFindings :=
  ⟨rfl, FindLargeFiles.sortFindings_pairwise,
    FindLargeFiles.sortFindings_filter_count, bridge_sortFindings⟩

/-- C4: the console variant and the file variant compute exactly the
same sequence of findings and render the same lines; they differ only
in the output sink (standard output versus the named report file). -/
theorem c4_variants_equivalent (fs : DRAM.FS) (roots : List String)
    (warn_limit fail_limit : Nat) (output_file : String) :
    (FindLargeFilesV2.check_files fs roots warn_limit fail_limit
        output_file).2
      = FindLargeFiles.check_files fs roots warn_limit fail_limit
    ∧ FindLargeFilesV2.sortFindings
        (FindLargeFilesV2.scanEntries warn_limit fail_limit
          (FindLargeFilesV2.allEntries fs roots)).1
      = FindLargeFiles.sortFindings
          (FindLargeFiles.scanEntries warn_limit fail_limit
            (FindLargeFiles.allEntries fs roots)).1
    ∧ (FindLargeFilesV2.check_files fs roots warn_limit fail_limit
        output_file).1
      = output_file := by
  refine ⟨bridge_check_files fs roots warn_limit fail_limit output_file,
    ?_, rfl⟩
  rw [bridge_sortFindings, bridge_allEntries, bridge_scanEntries]

/-- C9: the scan is a pure function of the file tree and arguments, so
two runs against the same unchanged tree produce byte-identical report
content (for both variants). -/
theorem c9_idempotent_runs (fs fs' : DRAM.FS) (roots : List String)
    (warn_limit fail_limit : Nat) (output_file : String)
    (h : fs = fs') :
    FindLargeFiles.check_files fs roots warn_limit fail_limit
      = FindLargeFiles.check_files fs' roots warn_limit fail_limit
    ∧ FindLargeFilesV2.check_files fs roots warn_limit fail_limit output_file
        = FindLargeFilesV2.check_files fs' roots warn_limit fail_limit
            output_file := by
  subst h
  exact ⟨rfl, rfl⟩

/-- Witness for C9: two runs over an empty filesystem agree. -/
theorem c9_idempotent_runs_witness :
    FindLargeFiles.check_files [] ["src"] 500 700
      = FindLargeFiles.check_files [] ["src"] 500 700 :=
  (c9_idempotent_runs [] [] ["src"] 500 700 "large_files_report.txt" rfl).1

/-- C5: a file whose read raises an error contributes an error line to
the same sink as other messages and no finding; every other file's
finding is unaffected, and the scan runs to completion. -/
theorem c5_read_error_skipped (warn_limit fail_limit : Nat)
    (xs ys : List (String × DRAM.FileData)) (root e : String)
    (file : DRAM.FileData)
    (hres : file.res = Except.error e)
    (hext : FindLargeFiles.matchesExt file.name = true) :
    (FindLargeFiles.scanEntries warn_limit fail_limit
        (xs ++ (root, file) :: ys)).1
      = (FindLargeFiles.scanEntries warn_limit fail_limit (xs ++ ys)).1
    ∧ (FindLargeFiles.scanEntries warn_limit fail_limit
        (xs ++ (root, file) :: ys)).2
      = (FindLargeFiles.scanEntries warn_limit fail_limit xs).2
          ++ FindLargeFiles.errLine (DRAM.joinPath root file.name) e
              :: (FindLargeFiles.scanEntries warn_limit fail_limit ys).2
    ∧ (∀ (fs : DRAM.FS) (roots : List String),
        ∀ m ∈ (FindLargeFiles.scanEntries warn_limit fail_limit
                 (FindLargeFiles.allEntries fs roots)).2,
          m ∈ FindLargeFiles.check_files fs roots warn_limit fail_limit)
    ∧ (FindLargeFilesV2.scanEntries warn_limit fail_limit
        (xs ++ (root, file) :: ys)).1
      = (FindLargeFilesV2.scanEntries warn_limit fail_limit (xs ++ ys)).1 := by
  have herr :
      FindLargeFiles.scanEntries warn_limit fail_limit ((root, file) :: ys)
        = ((FindLargeFiles.scanEntries warn_limit fail_limit ys).1,
           FindLargeFiles.errLine (DRAM.joinPath root file.name) e
             :: (FindLargeFiles.scanEntries warn_limit fail_limit ys).2) := by
    simp [FindLargeFiles.scanEntries, hext, hres]
  refine ⟨?_, ?_, ?_, ?_⟩
  · rw [FindLargeFiles.scanEntries_append, FindLargeFiles.scanEntries_append,
      herr]
  · rw [FindLargeFiles.scanEntries_append, herr]
  · intro fs roots m hm
    unfold FindLargeFiles.check_files
    exact List.mem_cons.mpr (Or.inr (List.mem_append.mpr (Or.inl hm)))
  · rw [bridge_scanEntries, bridge_scanEntries,
      FindLargeFiles.scanEntries_append, FindLargeFiles.scanEntries_append,
      herr]

/-- Witness for C5: an unreadable `a.ts` amid a valid 600-line `b.js`
leaves the valid finding intact and logs the error. -/
theorem c5_read_error_skipped_witness :
    (FindLargeFiles.scanEntries 500 700
        ([("src", ⟨"b.js", Except.ok 600⟩)]
          ++ ("src", ⟨"a.ts", Except.error "Permission denied"⟩) :: [])).1
      = (FindLargeFiles.scanEntries 500 700
          ([("src", ⟨"b.js", Except.ok 600⟩)] ++ [])).1 :=
  (c5_read_error_skipped 500 700 [("src", ⟨"b.js", Except.ok 600⟩)] []
    "src" "Permission denied" ⟨"a.ts", Except.error "Permission denied"⟩
    rfl (by decide)).1

/-- C7: a file whose name ends with none of the recognized suffixes
contributes no finding and no output message, whatever its line count
or read outcome. -/
theorem c7_extension_filter (warn_limit fail_limit : Nat)
    (xs ys : List (String × DRAM.FileData)) (root : String)
    (file : DRAM.FileData)
    (hext : FindLargeFiles.matchesExt file.name = false) :
    FindLargeFiles.scanEntries warn_limit fail_limit
        (xs ++ (root, file) :: ys)
      = FindLargeFiles.scanEntries warn_limit fail_limit (xs ++ ys)
    ∧ FindLargeFilesV2.scanEntries warn_limit fail_limit
        (xs ++ (root, file) :: ys)
      = FindLargeFilesV2.scanEntries warn_limit fail_limit (xs ++ ys) := by
  have hskip :
      FindLargeFiles.scanEntries warn_limit fail_limit ((root, file) :: ys)
        = FindLargeFiles.scanEntries warn_limit fail_limit ys := by
    simp [FindLargeFiles.scanEntries, hext]
  have h1 :
      FindLargeFiles.scanEntries warn_limit fail_limit
          (xs ++ (root, file) :: ys)
        = FindLargeFiles.scanEntries warn_limit fail_limit (xs ++ ys) := by
    rw [FindLargeFiles.scanEntries_append, hskip,
      ← FindLargeFiles.scanEntries_append]
  exact ⟨h1, by rw [bridge_scanEntries, bridge_scanEntries, h1]⟩

/-- Witness for C7: a 10000-line `d.py` is silently ignored. -/
theorem c7_extension_filter_witness :
    FindLargeFiles.scanEntries 500 700
        ([] ++ ("src", ⟨"d.py", Except.ok 10000⟩) :: [])
      = FindLargeFiles.scanEntries 500 700 ([] ++ []) :=
  (c7_extension_filter 500 700 [] [] "src" ⟨"d.py", Except.ok 10000⟩
    (by decide)).1

/-- C8: a root path that does not exist on the filesystem contributes
zero findings and raises no error: the walk of that root yields nothing,
and the run still emits the header and the `Results:` section. -/
theorem c8_missing_root (fs : DRAM.FS) (pre post : List String) (r : String)
    (warn_limit fail_limit : Nat)
    (h : List.lookup r fs = none) :
    FindLargeFiles.allEntries fs (pre ++ r :: post)
      = FindLargeFiles.allEntries fs (pre ++ post)
    ∧ (FindLargeFiles.check_files fs (pre ++ r :: post)
        warn_limit fail_limit).head?
      = some (FindLargeFiles.headerLine (pre ++ r :: post)
          warn_limit fail_limit)
    ∧ "Results:" ∈ FindLargeFiles.check_files fs (pre ++ r :: post)
        warn_limit fail_limit
    ∧ FindLargeFilesV2.allEntries fs (pre ++ r :: post)
        = FindLargeFilesV2.allEntries fs (pre ++ post) := by
  have h1 :
      FindLargeFiles.allEntries fs (pre ++ r :: post)
        = FindLargeFiles.allEntries fs (pre ++ post) := by
    unfold FindLargeFiles.allEntries
    rw [List.flatMap_append, List.flatMap_cons, List.flatMap_append]
    simp only [h]
    simp
  refine ⟨h1, rfl, ?_, ?_⟩
  · unfold FindLargeFiles.check_files
    exact List.mem_cons.mpr (Or.inr (List.mem_append.mpr (Or.inr
      (List.mem_cons.mpr (Or.inr (List.mem_cons.mpr (Or.inl rfl)))))))
  · rw [bridge_allEntries, bridge_allEntries]
    exact h1

/-- Witness for C8: scanning the missing root `dram-engine/src` over an
empty filesystem yields no entries. -/
theorem c8_missing_root_witness :
    FindLargeFiles.allEntries [] ([] ++ "dram-engine/src" :: [])
      = FindLargeFiles.allEntries [] ([] ++ []) :=
  (c8_missing_root [] [] [] "dram-engine/src" 500 700 rfl).1

namespace FindLargeFiles

open DRAM

/-- The walk's pruning removes a `node_modules` or `.git` entry whole:
the pruned `dirs` list does not depend on that entry's subtree. -/
theorem pruneDirs_middle (pre post : List (String × Dir)) (name : String)
    (sub sub' : Dir) (hname : name = "node_modules" ∨ name = ".git")
    (hpre : ∀ d ∈ pre, d.1 ≠ name) :
    pruneDirs (pre ++ (name, sub) :: post)
      = pruneDirs (pre ++ (name, sub') :: post) := by
  rcases hname with hnm | hgit
  · subst hnm
    have hp : ∀ b ∈ pre,
        ¬ ((fun d : String × Dir => d.1 == "node_modules") b = true) :=
      fun b hb hpb => hpre b hb (by simpa using hpb)
    have e : ∀ s : Dir,
        List.eraseP (fun d : String × Dir => d.1 == "node_modules")
            (pre ++ ("node_modules", s) :: post)
          = pre ++ post := by
      intro s
      have e1 := @List.eraseP_append_right (String × Dir)
        (fun d => d.1 == "node_modules") pre (("node_modules", s) :: post) hp
      have e2 := @List.eraseP_cons_of_pos (String × Dir) ("node_modules", s)
        post (fun d => d.1 == "node_modules") (by simp)
      rw [e1, e2]
    rw [pruneDirs_eq, pruneDirs_eq, e sub, e sub']
  · subst hgit
    by_cases hnmx : ∃ x ∈ pre,
        (fun d : String × Dir => d.1 == "node_modules") x = true
    · obtain ⟨x, hx, hpx⟩ := hnmx
      have e : ∀ s : Dir,
          List.eraseP (fun d : String × Dir => d.1 == ".git")
              (List.eraseP (fun d : String × Dir => d.1 == "node_modules")
                (pre ++ (".git", s) :: post))
            = List.eraseP (fun d : String × Dir => d.1 == "node_modules") pre
                ++ post := by
        intro s
        have e1 := @List.eraseP_append_left (String × Dir)
          (fun d => d.1 == "node_modules") x hpx pre ((".git", s) :: post) hx
        have hgpre : ∀ b ∈ List.eraseP
            (fun d : String × Dir => d.1 == "node_modules") pre,
            ¬ ((fun d : String × Dir => d.1 == ".git") b = true) :=
          fun b hb hpb =>
            hpre b ((List.eraseP_sublist pre).subset hb) (by simpa using hpb)
        have e2 := @List.eraseP_append_right (String × Dir)
          (fun d => d.1 == ".git")
          (List.eraseP (fun d : String × Dir => d.1 == "node_modules") pre)
          ((".git", s) :: post) hgpre
        have e3 := @List.eraseP_cons_of_pos (String × Dir) (".git", s)
          post (fun d => d.1 == ".git") (by simp)
        rw [e1, e2, e3]
      rw [pruneDirs_eq, pruneDirs_eq, e sub, e sub']
    · have hp : ∀ b ∈ pre,
          ¬ ((fun d : String × Dir => d.1 == "node_modules") b = true) :=
        fun b hb hpb => hnmx ⟨b, hb, hpb⟩
      have e : ∀ s : Dir,
          List.eraseP (fun d : String × Dir => d.1 == ".git")
              (List.eraseP (fun d : String × Dir => d.1 == "node_modules")
                (pre ++ (".git", s) :: post))
            = pre ++ List.eraseP
                (fun d : String × Dir => d.1 == "node_modules") post := by
        intro s
        have e1 := @List.eraseP_append_right (String × Dir)
          (fun d => d.1 == "node_modules") pre ((".git", s) :: post) hp
        have e2 := @List.eraseP_cons_of_neg (String × Dir) (".git", s)
          post (fun d => d.1 == "node_modules") (by simp)
        have hgpre : ∀ b ∈ pre,
            ¬ ((fun d : String × Dir => d.1 == ".git") b = true) :=
          fun b hb hpb => hpre b hb (by simpa using hpb)
        have e3 := @List.eraseP_append_right (String × Dir)
          (fun d => d.1 == ".git") pre
          ((".git", s) :: List.eraseP
            (fun d : String × Dir => d.1 == "node_modules") post) hgpre
        have e4 := @List.eraseP_cons_of_pos (String × Dir) (".git", s)
          (List.eraseP (fun d : String × Dir => d.1 == "node_modules") post)
          (fun d => d.1 == ".git") (by simp)
        rw [e1, e2, e3, e4]
      rw [pruneDirs_eq, pruneDirs_eq, e sub, e sub']

end FindLargeFiles

/-- C6: a `node_modules` or `.git` subdirectory is pruned whole — the
walk's output does not depend on anything under it (so its files, of
any extension or size, contribute zero findings), and a directory
holding only pruned subdirectories yields no entries at all. -/
theorem c6_pruned_dirs_contribute_nothing (p : String)
    (files : List DRAM.FileData) (pre post : List (String × DRAM.Dir))
    (name : String) (sub sub' : DRAM.Dir)
    (hname : name = "node_modules" ∨ name = ".git")
    (hpre : ∀ d ∈ pre, d.1 ≠ name) :
    FindLargeFiles.walkFiles p
        (DRAM.Dir.mk files (pre ++ (name, sub) :: post))
      = FindLargeFiles.walkFiles p
          (DRAM.Dir.mk files (pre ++ (name, sub') :: post))
    ∧ (∀ (q : String) (s₀ s₁ : DRAM.Dir),
        FindLargeFiles.walkFiles q
            (DRAM.Dir.mk [] [("node_modules", s₀), (".git", s₁)]) = [])
    ∧ FindLargeFilesV2.walkFiles p
        (DRAM.Dir.mk files (pre ++ (name, sub) :: post))
      = FindLargeFilesV2.walkFiles p
          (DRAM.Dir.mk files (pre ++ (name, sub') :: post)) := by
  have hmain :
      FindLargeFiles.walkFiles p
          (DRAM.Dir.mk files (pre ++ (name, sub) :: post))
        = FindLargeFiles.walkFiles p
            (DRAM.Dir.mk files (pre ++ (name, sub') :: post)) := by
    rw [FindLargeFiles.walkFiles, FindLargeFiles.walkFiles]
    simp only [DRAM.Dir.files, DRAM.Dir.subdirs]
    rw [FindLargeFiles.pruneDirs_middle pre post name sub sub' hname hpre]
  refine ⟨hmain, ?_, ?_⟩
  · intro q s₀ s₁
    have h1 := @List.eraseP_cons_of_pos (String × DRAM.Dir)
      ("node_modules", s₀) [(".git", s₁)]
      (fun d => d.1 == "node_modules") (by simp)
    have h2 := @List.eraseP_cons_of_pos (String × DRAM.Dir)
      (".git", s₁) [] (fun d => d.1 == ".git") (by simp)
    have hprune :
        FindLargeFiles.pruneDirs [("node_modules", s₀), (".git", s₁)]
          = [] := by
      rw [FindLargeFiles.pruneDirs_eq, h1, h2]
    rw [FindLargeFiles.walkFiles]
    simp only [DRAM.Dir.files, DRAM.Dir.subdirs, List.map_nil,
      List.nil_append, hprune]
    rw [FindLargeFiles.walkList]
  · rw [bridge_walkFiles, bridge_walkFiles]
    exact hmain

/-- Witness for C6: replacing the subtree under a lone `node_modules`
entry (here: one containing a 9000-line `huge.ts`) by an empty one does
not change the walk. -/
theorem c6_pruned_dirs_contribute_nothing_witness :
    FindLargeFiles.walkFiles "src"
        (DRAM.Dir.mk [] ([] ++ ("node_modules",
            DRAM.Dir.mk [⟨"huge.ts", Except.ok 9000⟩] []) :: []))
      = FindLargeFiles.walkFiles "src"
          (DRAM.Dir.mk [] ([] ++ ("node_modules", DRAM.Dir.mk [] []) :: [])) :=
  (c6_pruned_dirs_contribute_nothing "src" [] [] [] "node_modules"
    (DRAM.Dir.mk [⟨"huge.ts", Except.ok 9000⟩] []) (DRAM.Dir.mk [] [])
    (Or.inl rfl) (by simp)).1
